import Mathlib

/-!
Verification of the metadata / codec / storage-hashing core of the
go-substrate-rpc-client repository, as a shallow embedding in Lean 4.

Go strings and byte slices are modelled as `List Nat` (each entry a byte
value); Go machine integers that can overflow are modelled as `Nat` with an
explicit `% 256` at the points where the Go code uses `uint8` arithmetic.
Fallible Go functions (returning `error`) are modelled with `Except`/`Option`;
a Go runtime panic (out-of-bounds slice access) is modelled by a `none` result
of an outer `Option`.
-/

namespace GSRPC

/-- A byte of a Go string or byte slice (values 0..255 in well-formed data). -/
abbrev Byte := Nat

/-- A Go string / `Text` value, modelled as its byte sequence. -/
abbrev Text := List Byte

/-- Splits a byte string on a separator byte, mirroring Go
`strings.Split(s, sep)` for a one-byte separator: the result is always
non-empty, and separators at the ends produce empty components. -/
def splitOnByte (sep : Byte) : List Byte → List (List Byte)
  | [] => [[]]
  | c :: cs =>
    let rest := splitOnByte sep cs
    if c = sep then [] :: rest
    else match rest with
      | [] => [[c]]
      | r :: rs => (c :: r) :: rs

/-- Storage hasher selector of metadata v11: a hand-rolled tagged union of
boolean flags, translated field-for-field from the Go struct
`StorageHasherV11`. -/
structure StorageHasherV11 where
  IsBlake2_128 : Bool := false
  IsBlake2_256 : Bool := false
  IsBlake2_128Concat : Bool := false
  IsTwox128 : Bool := false
  IsTwox256 : Bool := false
  IsTwox64Concat : Bool := false
  IsIdentity : Bool := false
  deriving DecidableEq, Repr

/-- Map storage entry shape (Go `MapTypeV11`). The Go `Type` fields are
type-name strings, modelled as `Text`. -/
structure MapTypeV11 where
  Hasher : StorageHasherV11 := {}
  Key : Text := []
  Value : Text := []
  Linked : Bool := false
  deriving DecidableEq, Repr

/-- Double-map storage entry shape (Go `DoubleMapTypeV11`). -/
structure DoubleMapTypeV11 where
  Hasher : StorageHasherV11 := {}
  Key1 : Text := []
  Key2 : Text := []
  Value : Text := []
  Key2Hasher : StorageHasherV11 := {}
  deriving DecidableEq, Repr

/-- Storage entry shape selector (Go `StorageFunctionTypeV11`): boolean flags
with one payload per flag; discriminant 0 is a plain type, 1 a map, 2 a
double map. -/
structure StorageFunctionTypeV11 where
  IsType : Bool := false
  AsType : Text := []
  IsMap : Bool := false
  AsMap : MapTypeV11 := {}
  IsDoubleMap : Bool := false
  AsDoubleMap : DoubleMapTypeV11 := {}
  deriving DecidableEq, Repr

/-- Modelled from the spec: the Go type `StorageFunctionModifierV0` is not in
the sources; the spec describes the modifier as a storage-default-value
policy encoded as a tagged variant with a one-byte discriminant. -/
inductive StorageFunctionModifierV0 where
  | optional
  | defaultValue
  | required
  deriving DecidableEq, Repr

/-- One storage entry (Go `StorageFunctionMetadataV11`). The Go field `Type`
is named `Ty` here because `Type` is reserved in Lean. -/
structure StorageFunctionMetadataV11 where
  Name : Text := []
  Modifier : StorageFunctionModifierV0 := .optional
  Ty : StorageFunctionTypeV11 := {}
  Fallback : List Byte := []
  Documentation : List Text := []
  deriving DecidableEq, Repr

/-- A module's storage section (Go `StorageMetadataV11`). The Go field
`Prefix` is named `Pfx` here to stay clear of reserved words. -/
structure StorageMetadataV11 where
  Pfx : Text := []
  Items : List StorageFunctionMetadataV11 := []
  deriving DecidableEq, Repr

/-- Modelled from the spec: `FunctionArgumentMetadata` is not in the sources;
the spec describes calls as named, field-described functions, so an argument
carries a name and a type name. -/
structure FunctionArgumentMetadata where
  Name : Text := []
  Ty : Text := []
  deriving DecidableEq, Repr

/-- Modelled from the spec: the Go type `FunctionMetadataV4` is not in the
sources; the spec describes `Calls` as an ordered sequence of named,
field-described functions. -/
structure FunctionMetadataV4 where
  Name : Text := []
  Args : List FunctionArgumentMetadata := []
  Documentation : List Text := []
  deriving DecidableEq, Repr

/-- Modelled from the spec: the Go type `EventMetadataV4` is not in the
sources; the spec describes `Events` as an ordered sequence of named,
field-described events. -/
structure EventMetadataV4 where
  Name : Text := []
  Args : List Text := []
  Documentation : List Text := []
  deriving DecidableEq, Repr

/-- Modelled from the spec: the Go type `ModuleConstantMetadataV6` is not in
the sources; the spec only says modules carry an unconditional `Constants`
list, so a constant is modelled as a named, typed raw value. -/
structure ModuleConstantMetadataV6 where
  Name : Text := []
  Ty : Text := []
  Value : List Byte := []
  Documentation : List Text := []
  deriving DecidableEq, Repr

/-- Modelled from the spec: the Go type `ErrorMetadataV8` is not in the
sources; the spec only says modules carry an unconditional `Errors` list, so
an error is modelled as a named, documented entry. -/
structure ErrorMetadataV8 where
  Name : Text := []
  Documentation : List Text := []
  deriving DecidableEq, Repr

/-- One module of metadata v11 (Go `ModuleMetadataV11`): a name and three
independently optional sections guarded by boolean flags, plus unconditional
constants and errors. -/
structure ModuleMetadataV11 where
  Name : Text := []
  HasStorage : Bool := false
  Storage : StorageMetadataV11 := {}
  HasCalls : Bool := false
  Calls : List FunctionMetadataV4 := []
  HasEvents : Bool := false
  Events : List EventMetadataV4 := []
  Constants : List ModuleConstantMetadataV6 := []
  Errors : List ErrorMetadataV8 := []
  deriving DecidableEq, Repr

/-- Extrinsic section of metadata v11 (Go `ExtrinsicV11`). -/
structure ExtrinsicV11 where
  Version : Nat := 0
  SignedExtensions : List Text := []
  deriving DecidableEq, Repr

/-- Metadata v11 (Go `MetadataV11`). -/
structure MetadataV11 where
  Modules : List ModuleMetadataV11 := []
  Extrinsic : ExtrinsicV11 := {}
  deriving DecidableEq, Repr

/-- A resolved binary call address (Go `CallIndex`): a pair of `uint8`
indices. -/
structure CallIndex where
  SectionIndex : Nat := 0
  MethodIndex : Nat := 0
  deriving DecidableEq, Repr

/-- An event identifier from the wire (Go `EventID`, a `[2]byte`): the
module index and the event index. -/
abbrev EventID := Nat × Nat

/-- Structured model of the `fmt.Errorf` failures of the metadata resolvers:
each constructor carries exactly the data the Go error message names. -/
inductive LookupError where
  | moduleNotFound (module : Text) (call : Text)
  | methodNotFound (method : Text) (module : Text) (call : Text)
  | moduleIndexOutOfRange (index : Nat)
  | eventIndexOutOfRange (index : Nat) (module : Text)
  | storageModuleNotFound (module : Text)
  | storageNotFound (fn : Text) (module : Text)
  deriving DecidableEq, Repr

/-- Loop body of `MetadataV11.FindCallIndex`, translated from the Go `for`
loop: `s` is the split of the query on the dot, `mi` the running `uint8`
module counter (hence the `% 256`). A module without calls is skipped
without touching `mi`; a calls-bearing module with a different name bumps
`mi`; on a name match the Go code reads `s[1]`, which panics when the query
had no dot — modelled as the `none` result. -/
def findCallLoop (s : List Text) : List ModuleMetadataV11 → Nat →
    Option (Except LookupError CallIndex)
  | [], _ => some (.error (.moduleNotFound (s.headD []) (s.headD [])))
  | mod :: rest, mi =>
    if mod.HasCalls = false then
      findCallLoop s rest mi
    else if mod.Name ≠ s.headD [] then
      findCallLoop s rest ((mi + 1) % 256)
    else
      match s.get? 1 with
      | none => none
      | some s1 =>
        match mod.Calls.findIdx? (fun f => f.Name = s1) with
        | some ci => some (.ok ⟨mi, ci % 256⟩)
        | none => some (.error (.methodNotFound s1 mod.Name (s.headD [])))

/-- Go `MetadataV11.FindCallIndex`: split the query on the dot and scan the
modules; the Go `moduleNotFound`/`methodNotFound` errors name the query
parts. `none` models the Go panic on a dot-less query hitting a
calls-bearing module with a matching name. -/
def MetadataV11.FindCallIndex (m : MetadataV11) (call : Text) :
    Option (Except LookupError CallIndex) :=
  findCallLoop (splitOnByte 46 call) m.Modules 0

/-- Loop body of `MetadataV11.FindEventNamesForEventID`, translated from the
Go `for` loop; `mi` is the running `uint8` counter over events-bearing
modules. -/
def findEventLoop (id0 id1 : Nat) : List ModuleMetadataV11 → Nat →
    Except LookupError (Text × Text)
  | [], _ => .error (.moduleIndexOutOfRange id0)
  | mod :: rest, mi =>
    if mod.HasEvents = false then
      findEventLoop id0 id1 rest mi
    else if mi ≠ id0 then
      findEventLoop id0 id1 rest ((mi + 1) % 256)
    else
      match mod.Events.get? id1 with
      | none => .error (.eventIndexOutOfRange id1 mod.Name)
      | some ev => .ok (mod.Name, ev.Name)

/-- Go `MetadataV11.FindEventNamesForEventID`. -/
def MetadataV11.FindEventNamesForEventID (m : MetadataV11) (id : EventID) :
    Except LookupError (Text × Text) :=
  findEventLoop id.1 id.2 m.Modules 0

/-- Loop body of `MetadataV11.FindStorageEntryMetadata`, translated from the
Go `for` loop: storage lookup matches the storage section's prefix name, not
the module name. -/
def findStorageLoop (module fn : Text) : List ModuleMetadataV11 →
    Except LookupError StorageFunctionMetadataV11
  | [] => .error (.storageModuleNotFound module)
  | mod :: rest =>
    if mod.HasStorage = false then
      findStorageLoop module fn rest
    else if mod.Storage.Pfx ≠ module then
      findStorageLoop module fn rest
    else
      match mod.Storage.Items.find? (fun s => s.Name = fn) with
      | some s => .ok s
      | none => .error (.storageNotFound fn module)

/-- Go `MetadataV11.FindStorageEntryMetadata`. -/
def MetadataV11.FindStorageEntryMetadata (m : MetadataV11) (module fn : Text) :
    Except LookupError StorageFunctionMetadataV11 :=
  findStorageLoop module fn m.Modules

/-- The named hash constructions `StorageHasherV11.HashFunc` can return.
The concrete digest primitives (Blake2b, xxhash) are external collaborators
per the spec; this type records which construction was selected. -/
inductive HashConstruction where
  | blake2_128
  | blake2_256
  | blake2_128Concat
  | twox128
  | twox256
  | twox64Concat
  deriving DecidableEq, Repr

/-- Go `StorageHasherV11.HashFunc`, translated branch-for-branch: an
if-cascade over the boolean flags. Note the `IsIdentity` branch returns the
`blake2.New128Concat` construction, exactly like the `IsBlake2_128Concat`
branch. -/
def StorageHasherV11.HashFunc (s : StorageHasherV11) :
    Except String HashConstruction :=
  if s.IsBlake2_128 then .ok .blake2_128
  else if s.IsBlake2_256 then .ok .blake2_256
  else if s.IsBlake2_128Concat then .ok .blake2_128Concat
  else if s.IsTwox128 then .ok .twox128
  else if s.IsTwox256 then .ok .twox256
  else if s.IsTwox64Concat then .ok .twox64Concat
  else if s.IsIdentity then .ok .blake2_128Concat
  else .error "hash function type not yet supported"

/-- The external digest primitives the hash constructions are built on
(out of core scope per the spec): each maps an input byte string to a digest
of the stated fixed length. -/
structure DigestPrimitives where
  blake2_128 : List Byte → List Byte
  blake2_256 : List Byte → List Byte
  twox128 : List Byte → List Byte
  twox256 : List Byte → List Byte
  twox64 : List Byte → List Byte
  blake2_128_len : ∀ k, (blake2_128 k).length = 16
  blake2_256_len : ∀ k, (blake2_256 k).length = 32
  twox128_len : ∀ k, (twox128 k).length = 16
  twox256_len : ∀ k, (twox256 k).length = 32
  twox64_len : ∀ k, (twox64 k).length = 8

/-- Output of a hash construction on input `k`: plain constructions produce
the digest alone, the concat constructions produce the digest followed by
the original input (Go `digestConcat128.Sum` / `New64Concat`). -/
def hashOutput (p : DigestPrimitives) (c : HashConstruction) (k : List Byte) :
    List Byte :=
  match c with
  | .blake2_128 => p.blake2_128 k
  | .blake2_256 => p.blake2_256 k
  | .blake2_128Concat => p.blake2_128 k ++ k
  | .twox128 => p.twox128 k
  | .twox256 => p.twox256 k
  | .twox64Concat => p.twox64 k ++ k

/-- Go `StorageFunctionMetadataV11.Hasher`: the map/double-map branches
delegate to the entry's hasher; any other (plain) entry silently gets the
Twox-128 hasher with no error. -/
def StorageFunctionMetadataV11.Hasher (s : StorageFunctionMetadataV11) :
    Except String HashConstruction :=
  if s.Ty.IsMap then s.Ty.AsMap.Hasher.HashFunc
  else if s.Ty.IsDoubleMap then s.Ty.AsDoubleMap.Hasher.HashFunc
  else .ok .twox128

/-- Go `StorageFunctionMetadataV11.Hasher2`: only double maps have a second
hasher; everything else is an error. -/
def StorageFunctionMetadataV11.Hasher2 (s : StorageFunctionMetadataV11) :
    Except String HashConstruction :=
  if s.Ty.IsDoubleMap = false then .error "only DoubleMaps have a Hasher2"
  else s.Ty.AsDoubleMap.Key2Hasher.HashFunc

/-! Section: The concat hash construction (crypto/blake2b/concat_128.go)

The state of a `digestConcat128` value: the MAC key passed to
`blake2b.New(16, key)`, the bytes written to the underlying Blake2b hasher
since its last reset, and the buffered copy of the original bytes that
`Sum` appends after the digest. The Blake2b digest itself is an external
primitive: `Sum` takes it as the function `blake2` from key and written
bytes to the 16-byte digest. -/

/-- State of a Go `digestConcat128` value. -/
structure DigestConcat128 where
  key : List Byte
  written : List Byte
  data : List Byte
  deriving DecidableEq, Repr

/-- Go `New128Concat(key)`: a fresh keyed Blake2b-16 hasher with the data
buffer initialised to the key. -/
def New128Concat (key : List Byte) : DigestConcat128 :=
  { key := key, written := [], data := key }

/-- Go `digestConcat128.Write(p)`: append to the data buffer and feed the
underlying hasher. -/
def DigestConcat128.write (d : DigestConcat128) (p : List Byte) :
    DigestConcat128 :=
  { d with data := d.data ++ p, written := d.written ++ p }

/-- Go `digestConcat128.Reset()`: empty the data buffer and reset the
underlying (still keyed) hasher. -/
def DigestConcat128.reset (d : DigestConcat128) : DigestConcat128 :=
  { d with data := [], written := [] }

/-- Go `digestConcat128.Sum(sum)`: the underlying hasher's
`Sum` (`sum` followed by the digest of the written bytes) followed by the
buffered data. `blake2` is the external keyed Blake2b-128 primitive. -/
def DigestConcat128.sum (blake2 : List Byte → List Byte → List Byte)
    (d : DigestConcat128) (s : List Byte) : List Byte :=
  (s ++ blake2 d.key d.written) ++ d.data

/-- Writes a sequence of chunks to a concat hasher in order. -/
def DigestConcat128.writeAll (d : DigestConcat128) (ws : List (List Byte)) :
    DigestConcat128 :=
  ws.foldl DigestConcat128.write d

/-! Section: SCALE-style codec

Modelled from the spec: the `scale` encoder/decoder package is not in the
sources (only its callers are). Per the spec, a compact integer uses four
length classes selected by the two low bits of the first byte (1 byte for
0..63, 2 bytes for 64..16383, 4 bytes up to 2^30-1, and a length-prefixed
big-endian form beyond), encoding always picks the shortest class;
sequences are compact-length-prefixed; booleans are one byte 0x00/0x01 and
any other byte is a decode failure; decoding past the end fails. Encoders
return `Option` (the Go encoder returns an error), decoders return
`Option (value, remaining bytes)`. -/

/-- Little-endian byte decomposition with a fixed byte count. -/
def toBytesLE : Nat → Nat → List Byte
  | 0, _ => []
  | k + 1, n => n % 256 :: toBytesLE k (n / 256)

/-- Value of a little-endian byte sequence. -/
def fromBytesLE : List Byte → Nat
  | [] => 0
  | b :: rest => b + 256 * fromBytesLE rest

/-- Value of a big-endian byte sequence. -/
def fromBytesBE (bs : List Byte) : Nat :=
  bs.foldl (fun a b => a * 256 + b) 0

/-- Number of bytes needed to represent `n` (0 for 0). -/
def byteLen (n : Nat) : Nat :=
  if h : n = 0 then 0
  else byteLen (n / 256) + 1
decreasing_by exact Nat.div_lt_self (Nat.pos_of_ne_zero h) (by norm_num)

/-- Big-endian bytes of `n`, using exactly `byteLen n` bytes. -/
def toBytesBE (n : Nat) : List Byte :=
  (toBytesLE (byteLen n) n).reverse

/-- Compact-integer encoding: shortest of the four length classes. -/
def encodeCompact (n : Nat) : List Byte :=
  if n < 64 then [n * 4]
  else if n < 16384 then toBytesLE 2 (n * 4 + 1)
  else if n < 1073741824 then toBytesLE 4 (n * 4 + 2)
  else ((byteLen n - 4) * 4 + 3) :: toBytesBE n

/-- Compact-integer decoding: accepts any of the four length classes. -/
def decodeCompact : List Byte → Option (Nat × List Byte)
  | [] => none
  | b :: rest =>
    if b % 4 = 0 then some (b / 4, rest)
    else if b % 4 = 1 then
      match rest with
      | b2 :: r => some ((b + 256 * b2) / 4, r)
      | [] => none
    else if b % 4 = 2 then
      match rest with
      | b2 :: b3 :: b4 :: r =>
        some ((b + 256 * b2 + 65536 * b3 + 16777216 * b4) / 4, r)
      | _ => none
    else
      let len := b / 4 + 4
      if rest.length < len then none
      else some (fromBytesBE (rest.take len), rest.drop len)

/-- Boolean encoding: one byte, 0 or 1. -/
def encodeBool (b : Bool) : List Byte :=
  [if b then 1 else 0]

/-- Boolean decoding: 0x00/0x01 only, anything else fails. -/
def decodeBool : List Byte → Option (Bool × List Byte)
  | 0 :: rest => some (false, rest)
  | 1 :: rest => some (true, rest)
  | _ => none

/-- Byte-sequence encoding: compact length followed by the bytes. -/
def encodeBytes (bs : List Byte) : List Byte :=
  encodeCompact bs.length ++ bs

/-- Byte-sequence decoding. -/
def decodeBytes (bs : List Byte) : Option (List Byte × List Byte) := do
  let (n, bs) ← decodeCompact bs
  if bs.length < n then none
  else some (bs.take n, bs.drop n)

/-- Text encoding: a Go string encodes as its byte sequence. -/
def encodeText (t : Text) : List Byte :=
  encodeBytes t

/-- Text decoding. -/
def decodeText (bs : List Byte) : Option (Text × List Byte) :=
  decodeBytes bs

/-- Concatenates the encodings of all elements, failing if any element
fails to encode. -/
def concatMapO (enc : α → Option (List Byte)) : List α → Option (List Byte)
  | [] => some []
  | x :: xs => do
    let b ← enc x
    let r ← concatMapO enc xs
    pure (b ++ r)

/-- Sequence encoding: compact length followed by each element's encoding. -/
def encodeListO (enc : α → Option (List Byte)) (xs : List α) :
    Option (List Byte) := do
  let b ← concatMapO enc xs
  pure (encodeCompact xs.length ++ b)

/-- Decodes exactly `n` elements. -/
def decodeListN (dec : List Byte → Option (α × List Byte)) :
    Nat → List Byte → Option (List α × List Byte)
  | 0, bs => some ([], bs)
  | n + 1, bs => do
    let (x, bs) ← dec bs
    let (xs, bs) ← decodeListN dec n bs
    pure (x :: xs, bs)

/-- Sequence decoding: compact length then that many elements. -/
def decodeList (dec : List Byte → Option (α × List Byte)) (bs : List Byte) :
    Option (List α × List Byte) := do
  let (n, bs) ← decodeCompact bs
  decodeListN dec n bs

/-- Total sequence encoding for element encoders that cannot fail. -/
def encodeListT (enc : α → List Byte) (xs : List α) : List Byte :=
  encodeCompact xs.length ++ (xs.map enc).flatten

/-- Go `StorageHasherV11.Encode`: the first set flag selects the tag byte;
no set flag is an encode error (`none`). -/
def encodeStorageHasher (s : StorageHasherV11) : Option (List Byte) :=
  if s.IsBlake2_128 then some [0]
  else if s.IsBlake2_256 then some [1]
  else if s.IsBlake2_128Concat then some [2]
  else if s.IsTwox128 then some [3]
  else if s.IsTwox256 then some [4]
  else if s.IsTwox64Concat then some [5]
  else if s.IsIdentity then some [6]
  else none

/-- Go `StorageHasherV11.Decode`: a one-byte tag 0..6 sets the matching
flag; anything else is a decode error. -/
def decodeStorageHasher : List Byte → Option (StorageHasherV11 × List Byte)
  | 0 :: rest => some ({ IsBlake2_128 := true }, rest)
  | 1 :: rest => some ({ IsBlake2_256 := true }, rest)
  | 2 :: rest => some ({ IsBlake2_128Concat := true }, rest)
  | 3 :: rest => some ({ IsTwox128 := true }, rest)
  | 4 :: rest => some ({ IsTwox256 := true }, rest)
  | 5 :: rest => some ({ IsTwox64Concat := true }, rest)
  | 6 :: rest => some ({ IsIdentity := true }, rest)
  | _ => none

/-- Modifier encoding (one-byte tagged variant, see the modifier's model). -/
def encodeModifier : StorageFunctionModifierV0 → List Byte
  | .optional => [0]
  | .defaultValue => [1]
  | .required => [2]

/-- Modifier decoding. -/
def decodeModifier : List Byte → Option (StorageFunctionModifierV0 × List Byte)
  | 0 :: rest => some (.optional, rest)
  | 1 :: rest => some (.defaultValue, rest)
  | 2 :: rest => some (.required, rest)
  | _ => none

/-- Encoding of `MapTypeV11`: its fields in declaration order. -/
def encodeMapType (m : MapTypeV11) : Option (List Byte) := do
  let h ← encodeStorageHasher m.Hasher
  pure (h ++ encodeText m.Key ++ encodeText m.Value ++ encodeBool m.Linked)

/-- Decoding of `MapTypeV11`. -/
def decodeMapType (bs : List Byte) : Option (MapTypeV11 × List Byte) := do
  let (h, bs) ← decodeStorageHasher bs
  let (k, bs) ← decodeText bs
  let (v, bs) ← decodeText bs
  let (l, bs) ← decodeBool bs
  pure ({ Hasher := h, Key := k, Value := v, Linked := l }, bs)

/-- Encoding of `DoubleMapTypeV11`: its fields in declaration order. -/
def encodeDoubleMapType (m : DoubleMapTypeV11) : Option (List Byte) := do
  let h1 ← encodeStorageHasher m.Hasher
  let h2 ← encodeStorageHasher m.Key2Hasher
  pure (h1 ++ encodeText m.Key1 ++ encodeText m.Key2 ++ encodeText m.Value
    ++ h2)

/-- Decoding of `DoubleMapTypeV11`. -/
def decodeDoubleMapType (bs : List Byte) :
    Option (DoubleMapTypeV11 × List Byte) := do
  let (h1, bs) ← decodeStorageHasher bs
  let (k1, bs) ← decodeText bs
  let (k2, bs) ← decodeText bs
  let (v, bs) ← decodeText bs
  let (h2, bs) ← decodeStorageHasher bs
  pure ({ Hasher := h1, Key1 := k1, Key2 := k2, Value := v,
          Key2Hasher := h2 }, bs)

/-- Go `StorageFunctionTypeV11.Encode`: tag byte 0/1/2 for
plain/map/double-map, error (`none`) when no flag is set. -/
def encodeStorageFunctionType (t : StorageFunctionTypeV11) :
    Option (List Byte) :=
  if t.IsType then some (0 :: encodeText t.AsType)
  else if t.IsMap then do
    let b ← encodeMapType t.AsMap
    pure (1 :: b)
  else if t.IsDoubleMap then do
    let b ← encodeDoubleMapType t.AsDoubleMap
    pure (2 :: b)
  else none

/-- Go `StorageFunctionTypeV11.Decode`: reads the tag byte, then the
payload of the selected variant; an unknown tag is a decode error. -/
def decodeStorageFunctionType (bs : List Byte) :
    Option (StorageFunctionTypeV11 × List Byte) :=
  match bs with
  | 0 :: rest => do
    let (t, bs) ← decodeText rest
    pure ({ IsType := true, AsType := t }, bs)
  | 1 :: rest => do
    let (m, bs) ← decodeMapType rest
    pure ({ IsMap := true, AsMap := m }, bs)
  | 2 :: rest => do
    let (m, bs) ← decodeDoubleMapType rest
    pure ({ IsDoubleMap := true, AsDoubleMap := m }, bs)
  | _ => none

/-- Encoding of one storage entry: its fields in declaration order. -/
def encodeStorageItem (i : StorageFunctionMetadataV11) :
    Option (List Byte) := do
  let t ← encodeStorageFunctionType i.Ty
  pure (encodeText i.Name ++ encodeModifier i.Modifier ++ t
    ++ encodeBytes i.Fallback ++ encodeListT encodeText i.Documentation)

/-- Decoding of one storage entry. -/
def decodeStorageItem (bs : List Byte) :
    Option (StorageFunctionMetadataV11 × List Byte) := do
  let (n, bs) ← decodeText bs
  let (m, bs) ← decodeModifier bs
  let (t, bs) ← decodeStorageFunctionType bs
  let (f, bs) ← decodeBytes bs
  let (d, bs) ← decodeList decodeText bs
  pure ({ Name := n, Modifier := m, Ty := t, Fallback := f,
          Documentation := d }, bs)

/-- Encoding of a module's storage section: prefix name, then the items. -/
def encodeStorage (s : StorageMetadataV11) : Option (List Byte) := do
  let items ← encodeListO encodeStorageItem s.Items
  pure (encodeText s.Pfx ++ items)

/-- Decoding of a module's storage section. -/
def decodeStorage (bs : List Byte) :
    Option (StorageMetadataV11 × List Byte) := do
  let (p, bs) ← decodeText bs
  let (items, bs) ← decodeList decodeStorageItem bs
  pure ({ Pfx := p, Items := items }, bs)

/-- Encoding of a call argument: name then type name. -/
def encodeFunctionArg (a : FunctionArgumentMetadata) : List Byte :=
  encodeText a.Name ++ encodeText a.Ty

/-- Decoding of a call argument. -/
def decodeFunctionArg (bs : List Byte) :
    Option (FunctionArgumentMetadata × List Byte) := do
  let (n, bs) ← decodeText bs
  let (t, bs) ← decodeText bs
  pure ({ Name := n, Ty := t }, bs)

/-- Encoding of one call descriptor. -/
def encodeFunction (f : FunctionMetadataV4) : List Byte :=
  encodeText f.Name ++ encodeListT encodeFunctionArg f.Args
    ++ encodeListT encodeText f.Documentation

/-- Decoding of one call descriptor. -/
def decodeFunction (bs : List Byte) :
    Option (FunctionMetadataV4 × List Byte) := do
  let (n, bs) ← decodeText bs
  let (a, bs) ← decodeList decodeFunctionArg bs
  let (d, bs) ← decodeList decodeText bs
  pure ({ Name := n, Args := a, Documentation := d }, bs)

/-- Encoding of one event descriptor. -/
def encodeEvent (e : EventMetadataV4) : List Byte :=
  encodeText e.Name ++ encodeListT encodeText e.Args
    ++ encodeListT encodeText e.Documentation

/-- Decoding of one event descriptor. -/
def decodeEvent (bs : List Byte) :
    Option (EventMetadataV4 × List Byte) := do
  let (n, bs) ← decodeText bs
  let (a, bs) ← decodeList decodeText bs
  let (d, bs) ← decodeList decodeText bs
  pure ({ Name := n, Args := a, Documentation := d }, bs)

/-- Encoding of one module constant. -/
def encodeConstant (c : ModuleConstantMetadataV6) : List Byte :=
  encodeText c.Name ++ encodeText c.Ty ++ encodeBytes c.Value
    ++ encodeListT encodeText c.Documentation

/-- Decoding of one module constant. -/
def decodeConstant (bs : List Byte) :
    Option (ModuleConstantMetadataV6 × List Byte) := do
  let (n, bs) ← decodeText bs
  let (t, bs) ← decodeText bs
  let (v, bs) ← decodeBytes bs
  let (d, bs) ← decodeList decodeText bs
  pure ({ Name := n, Ty := t, Value := v, Documentation := d }, bs)

/-- Encoding of one module error descriptor. -/
def encodeError (e : ErrorMetadataV8) : List Byte :=
  encodeText e.Name ++ encodeListT encodeText e.Documentation

/-- Decoding of one module error descriptor. -/
def decodeError (bs : List Byte) :
    Option (ErrorMetadataV8 × List Byte) := do
  let (n, bs) ← decodeText bs
  let (d, bs) ← decodeList decodeText bs
  pure ({ Name := n, Documentation := d }, bs)

/-- Go `ModuleMetadataV11.Encode`: name, then each optional section's flag
followed by its payload only when the flag is true, then the unconditional
constants and errors. A false flag contributes exactly its one flag byte. -/
def encodeModule (m : ModuleMetadataV11) : Option (List Byte) := do
  let st ← if m.HasStorage then encodeStorage m.Storage else some []
  pure (encodeText m.Name
    ++ encodeBool m.HasStorage ++ st
    ++ encodeBool m.HasCalls
    ++ (if m.HasCalls then encodeListT encodeFunction m.Calls else [])
    ++ encodeBool m.HasEvents
    ++ (if m.HasEvents then encodeListT encodeEvent m.Events else [])
    ++ encodeListT encodeConstant m.Constants
    ++ encodeListT encodeError m.Errors)

/-- Go `ModuleMetadataV11.Decode`: reads each section flag before
conditionally reading its payload; an absent section leaves the zero
value. -/
def decodeModule (bs : List Byte) :
    Option (ModuleMetadataV11 × List Byte) := do
  let (name, bs) ← decodeText bs
  let (hasStorage, bs) ← decodeBool bs
  let (storage, bs) ←
    if hasStorage then decodeStorage bs else some (({} : StorageMetadataV11), bs)
  let (hasCalls, bs) ← decodeBool bs
  let (calls, bs) ←
    if hasCalls then decodeList decodeFunction bs
    else some (([] : List FunctionMetadataV4), bs)
  let (hasEvents, bs) ← decodeBool bs
  let (events, bs) ←
    if hasEvents then decodeList decodeEvent bs
    else some (([] : List EventMetadataV4), bs)
  let (constants, bs) ← decodeList decodeConstant bs
  let (errors, bs) ← decodeList decodeError bs
  pure ({ Name := name, HasStorage := hasStorage, Storage := storage,
          HasCalls := hasCalls, Calls := calls, HasEvents := hasEvents,
          Events := events, Constants := constants, Errors := errors }, bs)

/-- A storage hasher value with exactly one flag set: the only values the
hand-rolled tagged union represents coherently (these are exactly the
values `StorageHasherV11.Decode` can produce). -/
def WFHasher (h : StorageHasherV11) : Prop :=
  h = { IsBlake2_128 := true } ∨ h = { IsBlake2_256 := true } ∨
  h = { IsBlake2_128Concat := true } ∨ h = { IsTwox128 := true } ∨
  h = { IsTwox256 := true } ∨ h = { IsTwox64Concat := true } ∨
  h = { IsIdentity := true }

instance (h : StorageHasherV11) : Decidable (WFHasher h) := by
  unfold WFHasher; infer_instance

/-- A storage entry shape whose payload fields are populated only for the
single set variant flag (the values `StorageFunctionTypeV11.Decode` can
produce). -/
def WFType (t : StorageFunctionTypeV11) : Prop :=
  (t.IsType = true ∧ t.IsMap = false ∧ t.IsDoubleMap = false ∧
    t.AsMap = {} ∧ t.AsDoubleMap = {}) ∨
  (t.IsType = false ∧ t.IsMap = true ∧ t.IsDoubleMap = false ∧
    t.AsType = [] ∧ t.AsDoubleMap = {} ∧ WFHasher t.AsMap.Hasher) ∨
  (t.IsType = false ∧ t.IsMap = false ∧ t.IsDoubleMap = true ∧
    t.AsType = [] ∧ t.AsMap = {} ∧ WFHasher t.AsDoubleMap.Hasher ∧
    WFHasher t.AsDoubleMap.Key2Hasher)

instance (t : StorageFunctionTypeV11) : Decidable (WFType t) := by
  unfold WFType; infer_instance

/-- A module value whose section fields are populated only when the
corresponding flag is set: absent sections hold the zero value, and the
flag-guarded variant payloads inside the storage items are coherent. -/
def WFModule (m : ModuleMetadataV11) : Prop :=
  (m.HasStorage = false → m.Storage = {}) ∧
  (m.HasCalls = false → m.Calls = []) ∧
  (m.HasEvents = false → m.Events = []) ∧
  (∀ i ∈ m.Storage.Items, WFType i.Ty)

instance (m : ModuleMetadataV11) : Decidable (WFModule m) := by
  unfold WFModule; infer_instance

/-! Section: Dynamic event decoder

Modelled from the spec: the Go `EventRecordsRaw.DecodeEventRecords` function
is not in the sources (only its tests are). Per the spec, the decoder reads
a compact record count, then per record a `Phase` (tagged variant
ApplyExtrinsic(u32) | Finalization | Initialization), a two-byte `EventID`,
resolves the names via the metadata resolver, derives the destination slot
name `Module_Event`, and — when a matching slot exists — validates the
slot's declared element shape (at least two fields, first field `Phase`,
last field a sequence of 32-byte hashes) before decoding the middle fields
and the topics, appending a fully decoded record only on success. The
tests pin the validation order and the data each failure names. -/

/-- Modelled from the spec: the dispatch phase tagged variant. -/
inductive Phase where
  | applyExtrinsic (index : Nat)
  | finalization
  | initialization
  deriving DecidableEq, Repr

/-- The element field types a caller-declared destination slot can use:
the `Phase` type, a sequence of 32-byte hashes (the `Topics` type), and the
concrete fixed-width middle-field types the tests exercise. -/
inductive FieldType where
  | phase
  | topics
  | u8
  | u32
  | u128
  | accountID
  deriving DecidableEq, Repr

/-- A decoded destination field value. -/
inductive FieldValue where
  | phaseVal (p : Phase)
  | natVal (n : Nat)
  | bytesVal (bs : List Byte)
  | hashesVal (hs : List (List Byte))
  deriving DecidableEq, Repr

/-- Structured model of the decode failures of the event decoder: each
constructor carries exactly the data the corresponding Go error message
names. -/
inductive EventDecodeError where
  | tooFewFields (eventNum : Nat) (id : EventID) (field : Text)
      (numFields : Nat)
  | firstFieldNotPhase (eventNum : Nat) (id : EventID) (field : Text)
      (actual : FieldType)
  | lastFieldNotTopics (eventNum : Nat) (id : EventID) (field : Text)
      (actual : FieldType)
  | eventNotRegistered (field : Text)
  | lookup (e : LookupError)
  | bufferUnderrun
  deriving DecidableEq, Repr

/-- Decodes a fixed number of raw bytes. -/
def decodeRaw (n : Nat) (bs : List Byte) :
    Option (List Byte × List Byte) :=
  if bs.length < n then none else some (bs.take n, bs.drop n)

/-- Decodes a little-endian u32. -/
def decodeU32 (bs : List Byte) : Option (Nat × List Byte) := do
  let (b, bs) ← decodeRaw 4 bs
  pure (fromBytesLE b, bs)

/-- Decodes a `Phase` tagged variant. -/
def decodePhase : List Byte → Option (Phase × List Byte)
  | 0 :: rest => do
    let (n, bs) ← decodeU32 rest
    pure (.applyExtrinsic n, bs)
  | 1 :: rest => some (.finalization, rest)
  | 2 :: rest => some (.initialization, rest)
  | _ => none

/-- Decodes a `Topics` value: a compact count of 32-byte hashes. -/
def decodeTopics (bs : List Byte) :
    Option (List (List Byte) × List Byte) :=
  decodeList (decodeRaw 32) bs

/-- Decodes one middle field of a destination element by its declared
type. -/
def decodeField : FieldType → List Byte → Option (FieldValue × List Byte)
  | .phase, bs => do
    let (p, bs) ← decodePhase bs
    pure (.phaseVal p, bs)
  | .topics, bs => do
    let (hs, bs) ← decodeTopics bs
    pure (.hashesVal hs, bs)
  | .u8, bs => do
    let (b, bs) ← decodeRaw 1 bs
    pure (.natVal (fromBytesLE b), bs)
  | .u32, bs => do
    let (b, bs) ← decodeRaw 4 bs
    pure (.natVal (fromBytesLE b), bs)
  | .u128, bs => do
    let (b, bs) ← decodeRaw 16 bs
    pure (.natVal (fromBytesLE b), bs)
  | .accountID, bs => do
    let (b, bs) ← decodeRaw 32 bs
    pure (.bytesVal b, bs)

/-- Decodes a list of middle fields in declared order. -/
def decodeFields : List FieldType → List Byte →
    Option (List FieldValue × List Byte)
  | [], bs => some ([], bs)
  | t :: ts, bs => do
    let (v, bs) ← decodeField t bs
    let (vs, bs) ← decodeFields ts bs
    pure (v :: vs, bs)

/-- The caller-declared destination: name-keyed slots, each giving the
field types of its element shape. -/
abbrev Destination := List (Text × List FieldType)

/-- Appends a decoded record to the named slot of the accumulated output. -/
def appendRecord (name : Text) (rec : List FieldValue) :
    List (Text × List (List FieldValue)) →
    List (Text × List (List FieldValue))
  | [] => []
  | (n, rs) :: rest =>
    if n = name then (n, rs ++ [rec]) :: rest
    else (n, rs) :: appendRecord name rec rest

/-- Decodes `count` event records, validating each matching destination
slot's element shape before touching its payload. `eventNum` is the running
record number the error messages name. -/
def decodeEventsLoop (m : MetadataV11) (dest : Destination) :
    Nat → Nat → List Byte → List (Text × List (List FieldValue)) →
    Except EventDecodeError (List (Text × List (List FieldValue)))
  | 0, _, _, acc => .ok acc
  | count + 1, eventNum, bs, acc =>
    match decodePhase bs with
    | none => .error .bufferUnderrun
    | some (phase, bs) =>
      match decodeRaw 2 bs with
      | none => .error .bufferUnderrun
      | some (idBytes, bs) =>
        let id : EventID := (idBytes.headD 0, (idBytes.drop 1).headD 0)
        match m.FindEventNamesForEventID id with
        | .error e => .error (.lookup e)
        | .ok (moduleName, eventName) =>
          let field := moduleName ++ [95] ++ eventName
          match dest.find? (fun d => d.1 = field) with
          | none => .error (.eventNotRegistered field)
          | some (_, fields) =>
            if fields.length < 2 then
              .error (.tooFewFields eventNum id field fields.length)
            else if fields.headD .phase ≠ .phase then
              .error (.firstFieldNotPhase eventNum id field
                (fields.headD .phase))
            else if fields.getLastD .phase ≠ .topics then
              .error (.lastFieldNotTopics eventNum id field
                (fields.getLastD .phase))
            else
              match decodeFields (fields.drop 1).dropLast bs with
              | none => .error .bufferUnderrun
              | some (middles, bs) =>
                match decodeTopics bs with
                | none => .error .bufferUnderrun
                | some (topics, bs) =>
                  decodeEventsLoop m dest count (eventNum + 1) bs
                    (appendRecord field
                      (.phaseVal phase :: middles ++ [.hashesVal topics])
                      acc)

/-- Modelled from the spec: `EventRecordsRaw.DecodeEventRecords` — reads
the compact record count, then decodes that many records into the
name-keyed destination; stops at the count, not at end of buffer. -/
def decodeEventRecords (m : MetadataV11) (dest : Destination)
    (raw : List Byte) :
    Except EventDecodeError (List (Text × List (List FieldValue))) :=
  match decodeCompact raw with
  | none => .error .bufferUnderrun
  | some (count, bs) =>
    decodeEventsLoop m dest count 0 bs (dest.map (fun d => (d.1, [])))

deriving instance DecidableEq for Except

/-! Section: Concrete values used by witnesses and counterexamples -/

/-- Module A: name "A", no calls. -/
def modA : ModuleMetadataV11 := { Name := [65] }

/-- Module B: name "B", calls ["f"]. -/
def modB : ModuleMetadataV11 :=
  { Name := [66], HasCalls := true, Calls := [{ Name := [102] }] }

/-- Module C: name "C", calls ["g", "h"]. -/
def modC : ModuleMetadataV11 :=
  { Name := [67], HasCalls := true,
    Calls := [{ Name := [103] }, { Name := [104] }] }

/-- Metadata with modules A (no calls), B (calls [f]), C (calls [g, h]). -/
def metaABC : MetadataV11 := { Modules := [modA, modB, modC] }

/-- An arbitrary 16-byte digest standing in for the external keyed Blake2b
primitive (a concrete instance used by witnesses; the primitive itself is
out of core scope per the spec). -/
def testBlake2 : List Byte → List Byte → List Byte :=
  fun _ _ => List.replicate 16 0

/-! Section: Claim theorems -/

/-- Helper for C1: a module without calls is skipped entirely by the
call-resolution loop — removing it changes nothing, at any counter value. -/
theorem findCallLoop_skip (s : List Text) (mod : ModuleMetadataV11)
    (h : mod.HasCalls = false) :
    ∀ (pre post : List ModuleMetadataV11) (mi : Nat),
      findCallLoop s (pre ++ mod :: post) mi =
      findCallLoop s (pre ++ post) mi := by
  intro pre
  induction pre with
  | nil => intro post mi; simp [findCallLoop, h]
  | cons p pre ih =>
    intro post mi
    by_cases hc : p.HasCalls = false
    · simp [findCallLoop, hc, ih]
    · by_cases hn : p.Name ≠ s.headD []
      · simp [findCallLoop, hc, hn, ih]
      · simp [findCallLoop, hc, not_not.mp hn]

/-- C1: FindCallIndex iterates modules in declaration order and skips every
module without calls without incrementing the running module index (first
conjunct: deleting a calls-less module anywhere leaves every query's result
unchanged), and the index counts only calls-bearing modules whose name
differs from the query; hence for metadata with modules
[A(no calls), B(calls [f]), C(calls [g, h])], the query "B.f" resolves to
indices (0, 0) and "C.h" to (1, 1). -/
theorem FindCallIndex_spec :
    (∀ (pre post : List ModuleMetadataV11) (mod : ModuleMetadataV11)
        (e : ExtrinsicV11) (call : Text), mod.HasCalls = false →
        MetadataV11.FindCallIndex ⟨pre ++ mod :: post, e⟩ call =
        MetadataV11.FindCallIndex ⟨pre ++ post, e⟩ call) ∧
    metaABC.FindCallIndex [66, 46, 102] = some (.ok ⟨0, 0⟩) ∧
    metaABC.FindCallIndex [67, 46, 104] = some (.ok ⟨1, 1⟩) := by
  refine ⟨?_, by decide, by decide⟩
  intro pre post mod e call h
  exact findCallLoop_skip _ mod h pre post 0

/-- C1 witness: the skip conjunct applied at a concrete input — deleting
the calls-less module A in front of B leaves the lookup of "B.f"
unchanged. -/
theorem FindCallIndex_spec_witness :
    MetadataV11.FindCallIndex ⟨[modA, modB], {}⟩ [66, 46, 102] =
    MetadataV11.FindCallIndex ⟨[modB], {}⟩ [66, 46, 102] :=
  FindCallIndex_spec.1 [] [modB] modA {} [66, 46, 102] rfl

/-- C2: HashFunc on a hasher with (only) IsIdentity set returns exactly the
same hash construction as on a hasher with IsBlake2_128Concat set — the
Blake2-128-Concat construction, whose output on input k is the 16-byte
Blake2b digest of k followed by k itself, and which is never a pass-through
of k alone. -/
theorem HashFunc_identity_is_concat (h : StorageHasherV11)
    (h1 : h.IsBlake2_128 = false) (h2 : h.IsBlake2_256 = false)
    (h3 : h.IsBlake2_128Concat = false) (h4 : h.IsTwox128 = false)
    (h5 : h.IsTwox256 = false) (h6 : h.IsTwox64Concat = false)
    (h7 : h.IsIdentity = true) :
    h.HashFunc = StorageHasherV11.HashFunc { IsBlake2_128Concat := true } ∧
    h.HashFunc = .ok .blake2_128Concat ∧
    ∀ (p : DigestPrimitives) (k : List Byte),
      hashOutput p .blake2_128Concat k = p.blake2_128 k ++ k ∧
      hashOutput p .blake2_128Concat k ≠ k := by
  refine ⟨?_, ?_, ?_⟩
  · simp [StorageHasherV11.HashFunc, h1, h2, h3, h4, h5, h6, h7]
  · simp [StorageHasherV11.HashFunc, h1, h2, h3, h4, h5, h6, h7]
  · intro p k
    refine ⟨rfl, fun heq => ?_⟩
    have hlen := congrArg List.length heq
    simp [hashOutput, p.blake2_128_len] at hlen

/-- C2 witness: the theorem applied at the canonical Identity hasher. -/
theorem HashFunc_identity_is_concat_witness :
    StorageHasherV11.HashFunc { IsIdentity := true } =
      StorageHasherV11.HashFunc { IsBlake2_128Concat := true } ∧
    StorageHasherV11.HashFunc { IsIdentity := true } =
      .ok .blake2_128Concat ∧
    ∀ (p : DigestPrimitives) (k : List Byte),
      hashOutput p .blake2_128Concat k = p.blake2_128 k ++ k ∧
      hashOutput p .blake2_128Concat k ≠ k :=
  HashFunc_identity_is_concat { IsIdentity := true }
    rfl rfl rfl rfl rfl rfl rfl

/-- Helper for C4 and C8: folding writes over a concat hasher appends the
concatenation of the chunks to both the underlying hasher's input and the
data buffer. -/
theorem writeAll_state (ws : List (List Byte)) :
    ∀ d : DigestConcat128, d.writeAll ws =
      { d with written := d.written ++ ws.flatten,
               data := d.data ++ ws.flatten } := by
  induction ws with
  | nil => intro d; simp [DigestConcat128.writeAll]
  | cons w ws ih =>
    intro d
    simp [DigestConcat128.writeAll, DigestConcat128.write] at ih ⊢
    simp [ih, List.append_assoc]

/-- C4: for every sequence of Write calls whose concatenated bytes are k,
Sum(nil) of a New128Concat(nil) hasher is exactly the 16-byte digest of k
immediately followed by k — never k alone, and never the digest alone (for
non-empty k). Quantified over every 16-byte digest primitive `blake2`,
standing for the external keyed Blake2b-128. -/
theorem concat128_sum_spec (blake2 : List Byte → List Byte → List Byte)
    (hlen : ∀ key msg, (blake2 key msg).length = 16)
    (ws : List (List Byte)) :
    ((New128Concat []).writeAll ws).sum blake2 [] =
      blake2 [] ws.flatten ++ ws.flatten ∧
    blake2 [] ws.flatten ++ ws.flatten ≠ ws.flatten ∧
    (ws.flatten ≠ [] →
      blake2 [] ws.flatten ++ ws.flatten ≠ blake2 [] ws.flatten) := by
  refine ⟨?_, fun heq => ?_, fun hne heq => ?_⟩
  · simp [writeAll_state, New128Concat, DigestConcat128.sum]
  · have h := congrArg List.length heq
    rw [List.length_append, hlen] at h
    omega
  · have h := congrArg List.length heq
    rw [List.length_append, hlen] at h
    have h0 : ws.flatten.length = 0 := by omega
    exact hne (List.length_eq_zero.mp h0)

/-- C4 witness: the theorem at the stand-in digest and the write sequence
[[1], [2, 3]]. -/
theorem concat128_sum_spec_witness :
    ((New128Concat []).writeAll [[1], [2, 3]]).sum testBlake2 [] =
      testBlake2 [] ([[1], [2, 3]] : List (List Byte)).flatten ++
        ([[1], [2, 3]] : List (List Byte)).flatten ∧
    testBlake2 [] ([[1], [2, 3]] : List (List Byte)).flatten ++
      ([[1], [2, 3]] : List (List Byte)).flatten ≠
      ([[1], [2, 3]] : List (List Byte)).flatten ∧
    (([[1], [2, 3]] : List (List Byte)).flatten ≠ [] →
      testBlake2 [] ([[1], [2, 3]] : List (List Byte)).flatten ++
        ([[1], [2, 3]] : List (List Byte)).flatten ≠
        testBlake2 [] ([[1], [2, 3]] : List (List Byte)).flatten) :=
  concat128_sum_spec testBlake2 (fun _ _ => by simp [testBlake2]) [[1], [2, 3]]

/-- C8 counterexample: the claim that a reset hasher behaves identically to
a freshly constructed one is false for a keyed hasher: for every 16-byte
digest primitive, after New128Concat([1]) a Reset followed by Write([2])
and Sum(nil) differs from Write([2]) then Sum(nil) on a fresh hasher,
because construction initialises the data buffer to the key while Reset
empties it. -/
theorem concat128_reset_not_fresh :
    ¬ ∀ (blake2 : List Byte → List Byte → List Byte),
        (∀ key msg, (blake2 key msg).length = 16) →
        ((New128Concat [1]).reset.write [2]).sum blake2 [] =
        ((New128Concat [1]).write [2]).sum blake2 [] := by
  intro hAll
  have h := hAll testBlake2 (fun _ _ => by simp [testBlake2])
  revert h
  decide

/-- C8 (amended): Reset clears both the underlying digest state (back to
its keyed initial state) and the buffered data, so for any prior writes a
subsequent Write of k followed by Sum(nil) yields the keyed digest of k
followed by k; a hasher constructed with the empty (nil) key therefore
behaves identically after Reset to a freshly constructed one, for every
digest primitive. -/
theorem concat128_reset_spec (blake2 : List Byte → List Byte → List Byte)
    (prior : List (List Byte)) (k : List Byte) :
    (∀ key : List Byte,
      (((New128Concat key).writeAll prior).reset.write k).sum blake2 [] =
        blake2 key k ++ k) ∧
    (((New128Concat []).writeAll prior).reset.write k).sum blake2 [] =
      ((New128Concat []).write k).sum blake2 [] := by
  constructor
  · intro key
    simp [writeAll_state, New128Concat, DigestConcat128.reset,
      DigestConcat128.write, DigestConcat128.sum]
  · simp [writeAll_state, New128Concat, DigestConcat128.reset,
      DigestConcat128.write, DigestConcat128.sum]

/-- Helper for C5: the event-name loop, started at counter mi bounded by
the queried byte id0, resolves to the events-bearing module at position
id0 - mi among events-bearing modules, with the positional and range
behaviour of the Go loop. -/
theorem findEventLoop_eq (id0 id1 : Nat) (h0 : id0 < 256) :
    ∀ (mods : List ModuleMetadataV11) (mi : Nat), mi ≤ id0 →
      findEventLoop id0 id1 mods mi =
        match (mods.filter (fun mod => mod.HasEvents)).get? (id0 - mi) with
        | none => .error (.moduleIndexOutOfRange id0)
        | some mod =>
          match mod.Events.get? id1 with
          | none => .error (.eventIndexOutOfRange id1 mod.Name)
          | some ev => .ok (mod.Name, ev.Name) := by
  intro mods
  induction mods with
  | nil => intro mi hmi; simp [findEventLoop]
  | cons mod rest ih =>
    intro mi hmi
    by_cases he : mod.HasEvents = false
    · simp [findEventLoop, he, List.filter_cons, ih mi hmi]
    · have he' : mod.HasEvents = true := by
        cases h : mod.HasEvents with
        | false => exact absurd h he
        | true => rfl
      by_cases hmi0 : mi = id0
      · subst hmi0
        simp [findEventLoop, he', List.filter_cons]
      · have hlt : mi < id0 := lt_of_le_of_ne hmi hmi0
        have hmod : (mi + 1) % 256 = mi + 1 := Nat.mod_eq_of_lt (by omega)
        have hsub : id0 - mi = (id0 - (mi + 1)) + 1 := by omega
        simp [findEventLoop, he', hmi0, hmod, List.filter_cons,
          ih (mi + 1) (by omega), hsub]

/-- C5: FindEventNamesForEventID scans only events-bearing modules in
declaration order with consecutive running indices from 0: it returns the
names of the events-bearing module at running index eventID.1 and of its
event at position eventID.2, an out-of-range error naming the module index
when no events-bearing module has that running index, and an out-of-range
error naming the event index and the module when the module has too few
events. The hypothesis reflects that eventID.1 is a byte on the wire. -/
theorem FindEventNamesForEventID_spec (m : MetadataV11) (id : EventID)
    (h0 : id.1 < 256) :
    m.FindEventNamesForEventID id =
      match (m.Modules.filter (fun mod => mod.HasEvents)).get? id.1 with
      | none => .error (.moduleIndexOutOfRange id.1)
      | some mod =>
        match mod.Events.get? id.2 with
        | none => .error (.eventIndexOutOfRange id.2 mod.Name)
        | some ev => .ok (mod.Name, ev.Name) := by
  have h := findEventLoop_eq id.1 id.2 h0 m.Modules 0 (Nat.zero_le _)
  simpa [MetadataV11.FindEventNamesForEventID] using h

/-- C5 witness: the theorem at metadata [A(no events), B(events [e]),
C(events [e, f])]: event ID (1, 1) resolves to C.f, (1, 2) is an event
index out of range, (2, 0) a module index out of range. -/
theorem FindEventNamesForEventID_spec_witness :
    MetadataV11.FindEventNamesForEventID
      ⟨[{ Name := [65] },
        { Name := [66], HasEvents := true, Events := [{ Name := [101] }] },
        { Name := [67], HasEvents := true,
          Events := [{ Name := [101] }, { Name := [102] }] }], {}⟩
      (1, 1) = .ok ([67], [102]) := by
  have h := FindEventNamesForEventID_spec
    ⟨[{ Name := [65] },
      { Name := [66], HasEvents := true, Events := [{ Name := [101] }] },
      { Name := [67], HasEvents := true,
        Events := [{ Name := [101] }, { Name := [102] }] }], {}⟩
    (1, 1) (by decide)
  simpa using h

/-- Helper for C7: the storage-lookup loop returns the entry named fn of
the first storage-bearing module whose storage prefix equals the queried
module string, with the not-found errors of the Go code. -/
theorem findStorageLoop_eq (module fn : Text) :
    ∀ mods : List ModuleMetadataV11,
      findStorageLoop module fn mods =
        match mods.find?
            (fun mod => mod.HasStorage && decide (mod.Storage.Pfx = module)) with
        | none => .error (.storageModuleNotFound module)
        | some mod =>
          match mod.Storage.Items.find? (fun s => s.Name = fn) with
          | some s => .ok s
          | none => .error (.storageNotFound fn module) := by
  intro mods
  induction mods with
  | nil => simp [findStorageLoop]
  | cons mod rest ih =>
    by_cases hs : mod.HasStorage = false
    · simp [findStorageLoop, hs, List.find?_cons, ih]
    · have hs' : mod.HasStorage = true := by
        cases h : mod.HasStorage with
        | false => exact absurd h hs
        | true => rfl
      by_cases hp : mod.Storage.Pfx = module
      · simp [findStorageLoop, hs', hp, List.find?_cons]
      · simp [findStorageLoop, hs', hp, List.find?_cons, ih]

/-- A storage item named "i", for the C7 example. -/
def itemX : StorageFunctionMetadataV11 := { Name := [105] }

/-- A module named "ModA" whose storage prefix is the different string
"PfxA", for the C7 example. -/
def modNamePfx : ModuleMetadataV11 :=
  { Name := [77, 111, 100, 65], HasStorage := true,
    Storage := { Pfx := [80, 102, 120, 65], Items := [itemX] } }

/-- Metadata holding only the module "ModA" / prefix "PfxA". -/
def metaPfx : MetadataV11 := { Modules := [modNamePfx] }

/-- C7: FindStorageEntryMetadata matches the queried module string against
the storage Prefix of each storage-bearing module in declaration order — so
it finds the first prefix-matching module and returns its entry named fn,
fails with a not-found error naming the module when no storage-bearing
module has that prefix and with one naming the entry when the matching
module lacks it (first conjunct); in particular a module is found under its
storage prefix and not under its own different name (last conjuncts). -/
theorem FindStorageEntryMetadata_spec :
    (∀ (m : MetadataV11) (module fn : Text),
      m.FindStorageEntryMetadata module fn =
        match m.Modules.find?
            (fun mod => mod.HasStorage && decide (mod.Storage.Pfx = module)) with
        | none => .error (.storageModuleNotFound module)
        | some mod =>
          match mod.Storage.Items.find? (fun s => s.Name = fn) with
          | some s => .ok s
          | none => .error (.storageNotFound fn module)) ∧
    metaPfx.FindStorageEntryMetadata [80, 102, 120, 65] [105] = .ok itemX ∧
    metaPfx.FindStorageEntryMetadata [77, 111, 100, 65] [105] =
      .error (.storageModuleNotFound [77, 111, 100, 65]) ∧
    metaPfx.FindStorageEntryMetadata [80, 102, 120, 65] [106] =
      .error (.storageNotFound [106] [80, 102, 120, 65]) := by
  refine ⟨?_, by decide, by decide, by decide⟩
  intro m module fn
  exact findStorageLoop_eq module fn m.Modules

/-- Helper for C9: splitting on a byte that does not occur returns the
whole string as the single component, as Go strings.Split does. -/
theorem splitOnByte_no_sep (sep : Byte) (s : List Byte) (h : sep ∉ s) :
    splitOnByte sep s = [s] := by
  induction s with
  | nil => rfl
  | cons c cs ih =>
    have hc : c ≠ sep := fun hh => h (hh ▸ List.mem_cons_self c cs)
    have hcs : sep ∉ cs := fun hh => h (List.mem_cons_of_mem c hh)
    simp [splitOnByte, hc, ih hcs]

/-- Helper for C9: when the query has no dot, the split is the one-element
list, and the loop hits the missing call-name component (the Go panic,
modelled as none) as soon as a calls-bearing module's name equals the whole
query. -/
theorem findCallLoop_no_dot (call : Text) :
    ∀ (mods : List ModuleMetadataV11) (mi : Nat),
      (∃ mod ∈ mods, mod.HasCalls = true ∧ mod.Name = call) →
      findCallLoop [call] mods mi = none := by
  intro mods
  induction mods with
  | nil => rintro mi ⟨mod, hmem, _⟩; simp at hmem
  | cons p rest ih =>
    rintro mi ⟨mod, hmem, hc, hname⟩
    rcases List.mem_cons.mp hmem with h | h
    · subst h
      simp [findCallLoop, hc, hname]
    · by_cases hpc : p.HasCalls = false
      · simpa [findCallLoop, hpc] using ih mi ⟨mod, h, hc, hname⟩
      · by_cases hpn : p.Name = call
        · simp [findCallLoop, hpc, hpn]
        · simpa [findCallLoop, hpc, hpn] using
            ih ((mi + 1) % 256) ⟨mod, h, hc, hname⟩

/-- C9: FindCallIndex presupposes a dotted query: for a call string without
a dot, whenever some calls-bearing module's name equals the whole string,
the Go code reads the missing call-name component of the split out of
bounds — a runtime panic, modelled here as the none result — instead of
returning a not-found error. -/
theorem FindCallIndex_no_dot (m : MetadataV11) (call : Text)
    (hnd : 46 ∉ call) (mod : ModuleMetadataV11) (hmem : mod ∈ m.Modules)
    (hc : mod.HasCalls = true) (hname : mod.Name = call) :
    m.FindCallIndex call = none := by
  unfold MetadataV11.FindCallIndex
  rw [splitOnByte_no_sep 46 call hnd]
  exact findCallLoop_no_dot call m.Modules 0 ⟨mod, hmem, hc, hname⟩

/-- C9 witness: the theorem at metadata holding a calls-bearing module
named "Foo" and the dot-less query "Foo". -/
theorem FindCallIndex_no_dot_witness :
    MetadataV11.FindCallIndex
      ⟨[{ Name := [70, 111, 111], HasCalls := true }], {}⟩
      [70, 111, 111] = none :=
  FindCallIndex_no_dot
    ⟨[{ Name := [70, 111, 111], HasCalls := true }], {}⟩
    [70, 111, 111] (by decide)
    { Name := [70, 111, 111], HasCalls := true }
    (by simp) rfl rfl

/-- C10: Hasher on a storage entry that is neither a Map nor a DoubleMap
(a Plain entry) silently returns the Twox-128 construction with no error,
while Hasher2 returns an error for every entry that is not a DoubleMap. -/
theorem Hasher_plain_default (s : StorageFunctionMetadataV11) :
    (s.Ty.IsMap = false → s.Ty.IsDoubleMap = false →
      s.Hasher = .ok .twox128) ∧
    (s.Ty.IsDoubleMap = false →
      s.Hasher2 = .error "only DoubleMaps have a Hasher2") := by
  constructor
  · intro h1 h2
    simp [StorageFunctionMetadataV11.Hasher, h1, h2]
  · intro h1
    simp [StorageFunctionMetadataV11.Hasher2, h1]

/-- C10 witness: the theorem at a concrete Plain storage entry. -/
theorem Hasher_plain_default_witness :
    StorageFunctionMetadataV11.Hasher { Ty := { IsType := true } } =
      .ok .twox128 ∧
    StorageFunctionMetadataV11.Hasher2 { Ty := { IsType := true } } =
      .error "only DoubleMaps have a Hasher2" :=
  ⟨(Hasher_plain_default { Ty := { IsType := true } }).1 rfl rfl,
   (Hasher_plain_default { Ty := { IsType := true } }).2 rfl⟩

/-- The destination slot name "Balances_Transfer". -/
def balancesTransferField : Text :=
  [66, 97, 108, 97, 110, 99, 101, 115, 95, 84, 114, 97, 110, 115, 102,
   101, 114]

/-- Metadata whose events-bearing modules are M0, M1, M2 and Balances, the
latter with events [e0, e1, Transfer], so event ID (3, 2) names
Balances.Transfer. -/
def metaEvents : MetadataV11 :=
  { Modules :=
      [{ Name := [77, 48], HasEvents := true, Events := [{ Name := [101] }] },
       { Name := [77, 49], HasEvents := true, Events := [{ Name := [101] }] },
       { Name := [77, 50], HasEvents := true, Events := [{ Name := [101] }] },
       { Name := [66, 97, 108, 97, 110, 99, 101, 115], HasEvents := true,
         Events := [{ Name := [101, 48] }, { Name := [101, 49] },
                    { Name := [84, 114, 97, 110, 115, 102, 101, 114] }] }] }

/-- A raw event buffer: one record (compact count 0x04), phase
ApplyExtrinsic(2), event ID bytes [3, 2]. -/
def rawOneTransfer : List Byte := [4, 0, 2, 0, 0, 0, 3, 2]

/-- Helper for C3: at any record position of the decoding loop — any
remaining count, any running event number, any accumulated output — as soon
as the record's phase and event ID parse, the names resolve, and the
destination has a matching slot, a violating slot shape fails the whole
decode with the corresponding error: fewer than two fields, a first field
that is not Phase, or a last field that is not the Topics type. -/
theorem decodeEventsLoop_shape (m : MetadataV11) (dest : Destination)
    (count eventNum : Nat) (bs bs1 bs2 : List Byte)
    (acc : List (Text × List (List FieldValue)))
    (phase : Phase) (idBytes : List Byte)
    (moduleName eventName slotName : Text) (fields : List FieldType)
    (hphase : decodePhase bs = some (phase, bs1))
    (hid : decodeRaw 2 bs1 = some (idBytes, bs2))
    (hnames : m.FindEventNamesForEventID
        (idBytes.headD 0, (idBytes.drop 1).headD 0) =
      .ok (moduleName, eventName))
    (hfind : dest.find?
        (fun d => d.1 = moduleName ++ [95] ++ eventName) =
      some (slotName, fields)) :
    (fields.length < 2 →
      decodeEventsLoop m dest (count + 1) eventNum bs acc =
        .error (.tooFewFields eventNum
          (idBytes.headD 0, (idBytes.drop 1).headD 0)
          (moduleName ++ [95] ++ eventName) fields.length)) ∧
    (¬ fields.length < 2 → fields.headD .phase ≠ .phase →
      decodeEventsLoop m dest (count + 1) eventNum bs acc =
        .error (.firstFieldNotPhase eventNum
          (idBytes.headD 0, (idBytes.drop 1).headD 0)
          (moduleName ++ [95] ++ eventName) (fields.headD .phase))) ∧
    (¬ fields.length < 2 → fields.headD .phase = .phase →
      fields.getLastD .phase ≠ .topics →
      decodeEventsLoop m dest (count + 1) eventNum bs acc =
        .error (.lastFieldNotTopics eventNum
          (idBytes.headD 0, (idBytes.drop 1).headD 0)
          (moduleName ++ [95] ++ eventName) (fields.getLastD .phase))) := by
  refine ⟨fun h2 => ?_, fun h2 hh => ?_, fun h2 hh hl => ?_⟩ <;>
    simp only [decodeEventsLoop, hphase, hid, hnames, hfind]
  · rw [if_pos h2]
  · rw [if_neg h2, if_pos hh]
  · rw [if_neg h2, if_neg (fun hcon => hcon hh), if_pos hl]

/-- C3: DecodeEventRecords fails rather than partially decoding whenever a
matching destination slot's element type violates the declared shape — for
every metadata, destination, raw buffer, record position and declared field
list: once a record's phase and event ID parse, its names resolve, and the
destination has a matching slot, then an element type with fewer than two
fields fails the decode with an error naming the event number, its EventID,
the field name and the actual field count; a first field that is not Phase
fails naming the actual first type found; a last field that is not the
Topics sequence-of-32-byte-hashes type fails naming the actual last type
found. The first conjunct states this at an arbitrary loop position (any
event number and accumulator); the second at the top-level entry point for
the first record. -/
theorem decodeEventRecords_shape_errors (m : MetadataV11)
    (dest : Destination) (raw : List Byte) (count eventNum : Nat)
    (bs bs1 bs2 : List Byte) (acc : List (Text × List (List FieldValue)))
    (phase : Phase) (idBytes : List Byte)
    (moduleName eventName slotName : Text) (fields : List FieldType)
    (hphase : decodePhase bs = some (phase, bs1))
    (hid : decodeRaw 2 bs1 = some (idBytes, bs2))
    (hnames : m.FindEventNamesForEventID
        (idBytes.headD 0, (idBytes.drop 1).headD 0) =
      .ok (moduleName, eventName))
    (hfind : dest.find?
        (fun d => d.1 = moduleName ++ [95] ++ eventName) =
      some (slotName, fields)) :
    ((fields.length < 2 →
      decodeEventsLoop m dest (count + 1) eventNum bs acc =
        .error (.tooFewFields eventNum
          (idBytes.headD 0, (idBytes.drop 1).headD 0)
          (moduleName ++ [95] ++ eventName) fields.length)) ∧
     (¬ fields.length < 2 → fields.headD .phase ≠ .phase →
      decodeEventsLoop m dest (count + 1) eventNum bs acc =
        .error (.firstFieldNotPhase eventNum
          (idBytes.headD 0, (idBytes.drop 1).headD 0)
          (moduleName ++ [95] ++ eventName) (fields.headD .phase))) ∧
     (¬ fields.length < 2 → fields.headD .phase = .phase →
      fields.getLastD .phase ≠ .topics →
      decodeEventsLoop m dest (count + 1) eventNum bs acc =
        .error (.lastFieldNotTopics eventNum
          (idBytes.headD 0, (idBytes.drop 1).headD 0)
          (moduleName ++ [95] ++ eventName) (fields.getLastD .phase)))) ∧
    (decodeCompact raw = some (count + 1, bs) →
     (fields.length < 2 →
      decodeEventRecords m dest raw =
        .error (.tooFewFields 0
          (idBytes.headD 0, (idBytes.drop 1).headD 0)
          (moduleName ++ [95] ++ eventName) fields.length)) ∧
     (¬ fields.length < 2 → fields.headD .phase ≠ .phase →
      decodeEventRecords m dest raw =
        .error (.firstFieldNotPhase 0
          (idBytes.headD 0, (idBytes.drop 1).headD 0)
          (moduleName ++ [95] ++ eventName) (fields.headD .phase))) ∧
     (¬ fields.length < 2 → fields.headD .phase = .phase →
      fields.getLastD .phase ≠ .topics →
      decodeEventRecords m dest raw =
        .error (.lastFieldNotTopics 0
          (idBytes.headD 0, (idBytes.drop 1).headD 0)
          (moduleName ++ [95] ++ eventName) (fields.getLastD .phase)))) := by
  have hloop := decodeEventsLoop_shape m dest count eventNum bs bs1 bs2
    acc phase idBytes moduleName eventName slotName fields
    hphase hid hnames hfind
  have hloop0 := decodeEventsLoop_shape m dest count 0 bs bs1 bs2
    (dest.map (fun d => (d.1, []))) phase idBytes moduleName eventName
    slotName fields hphase hid hnames hfind
  refine ⟨hloop, fun hcount => ?_⟩
  have hun : decodeEventRecords m dest raw =
      decodeEventsLoop m dest (count + 1) 0 bs
        (dest.map (fun d => (d.1, []))) := by
    simp only [decodeEventRecords, hcount]
  exact ⟨fun h2 => hun.trans (hloop0.1 h2),
    fun h2 hh => hun.trans (hloop0.2.1 h2 hh),
    fun h2 hh hl => hun.trans (hloop0.2.2 h2 hh hl)⟩

/-- C3 witness: the theorem applied at the concrete metadata whose event
ID (3, 2) is Balances.Transfer, the one-record raw buffer, and the three
violating destinations of the repository's tests, reproducing the exact
error data of each test. -/
theorem decodeEventRecords_shape_errors_witness :
    decodeEventRecords metaEvents [(balancesTransferField, [.u8])]
      rawOneTransfer =
      .error (.tooFewFields 0 (3, 2) balancesTransferField 1) ∧
    decodeEventRecords metaEvents
      [(balancesTransferField, [.u8, .u32, .topics])] rawOneTransfer =
      .error (.firstFieldNotPhase 0 (3, 2) balancesTransferField .u8) ∧
    decodeEventRecords metaEvents
      [(balancesTransferField, [.phase, .u32, .phase])] rawOneTransfer =
      .error (.lastFieldNotTopics 0 (3, 2) balancesTransferField .phase) := by
  refine ⟨?_, ?_, ?_⟩
  · exact ((decodeEventRecords_shape_errors metaEvents
      [(balancesTransferField, [.u8])] rawOneTransfer 0 0
      [0, 2, 0, 0, 0, 3, 2] [3, 2] [] []
      (.applyExtrinsic 2) [3, 2]
      [66, 97, 108, 97, 110, 99, 101, 115]
      [84, 114, 97, 110, 115, 102, 101, 114]
      balancesTransferField [.u8]
      (by decide) (by decide) (by decide) (by decide)).2
      (by decide)).1 (by decide)
  · exact ((decodeEventRecords_shape_errors metaEvents
      [(balancesTransferField, [.u8, .u32, .topics])] rawOneTransfer 0 0
      [0, 2, 0, 0, 0, 3, 2] [3, 2] [] []
      (.applyExtrinsic 2) [3, 2]
      [66, 97, 108, 97, 110, 99, 101, 115]
      [84, 114, 97, 110, 115, 102, 101, 114]
      balancesTransferField [.u8, .u32, .topics]
      (by decide) (by decide) (by decide) (by decide)).2
      (by decide)).2.1 (by decide) (by decide)
  · exact ((decodeEventRecords_shape_errors metaEvents
      [(balancesTransferField, [.phase, .u32, .phase])] rawOneTransfer 0 0
      [0, 2, 0, 0, 0, 3, 2] [3, 2] [] []
      (.applyExtrinsic 2) [3, 2]
      [66, 97, 108, 97, 110, 99, 101, 115]
      [84, 114, 97, 110, 115, 102, 101, 114]
      balancesTransferField [.phase, .u32, .phase]
      (by decide) (by decide) (by decide) (by decide)).2
      (by decide)).2.2 (by decide) (by decide) (by decide)

/-! Section: Round-trip lemmas for the codec (claim C6) -/

@[simp]
theorem toBytesLE_length (k : Nat) : ∀ n, (toBytesLE k n).length = k := by
  induction k with
  | zero => intro n; rfl
  | succ k ih => intro n; simp [toBytesLE, ih]

theorem fromBytesLE_toBytesLE (k : Nat) :
    ∀ n, n < 256 ^ k → fromBytesLE (toBytesLE k n) = n := by
  induction k with
  | zero =>
    intro n h
    simp [toBytesLE, fromBytesLE]
    omega
  | succ k ih =>
    intro n h
    have hdiv : n / 256 < 256 ^ k := by
      rw [Nat.div_lt_iff_lt_mul (by norm_num)]
      calc n < 256 ^ (k + 1) := h
        _ = 256 ^ k * 256 := by rw [pow_succ]
    simp [toBytesLE, fromBytesLE, ih (n / 256) hdiv]
    omega

theorem byteLen_lt (n : Nat) : n < 256 ^ byteLen n := by
  induction n using Nat.strong_induction_on with
  | _ n ih =>
    rw [byteLen]
    split
    · omega
    · rename_i h
      have hrec := ih (n / 256)
        (Nat.div_lt_self (Nat.pos_of_ne_zero h) (by norm_num))
      rw [pow_succ]
      rw [Nat.div_lt_iff_lt_mul (by norm_num)] at hrec
      exact hrec

theorem byteLen_ge_four (n : Nat) (h : 1073741824 ≤ n) : 4 ≤ byteLen n := by
  by_contra hlt
  have h3 : byteLen n ≤ 3 := by omega
  have := byteLen_lt n
  have hle : (256 : Nat) ^ byteLen n ≤ 256 ^ 3 :=
    Nat.pow_le_pow_right (by norm_num) h3
  omega

theorem fromBytesBE_reverse (l : List Byte) :
    fromBytesBE l.reverse = fromBytesLE l := by
  unfold fromBytesBE
  rw [List.foldl_reverse]
  induction l with
  | nil => rfl
  | cons b bs ih => simp [fromBytesLE, ih]; ring

theorem decodeCompact_encode (n : Nat) (rest : List Byte) :
    decodeCompact (encodeCompact n ++ rest) = some (n, rest) := by
  unfold encodeCompact
  by_cases h1 : n < 64
  · have hm : n * 4 % 4 = 0 := by omega
    have hd : n * 4 / 4 = n := by omega
    simp [h1, decodeCompact, hm, hd]
  · by_cases h2 : n < 16384
    · have e2 : toBytesLE 2 (n * 4 + 1) =
          [(n * 4 + 1) % 256, (n * 4 + 1) / 256 % 256] := by
        simp [toBytesLE]
      have hb1 : (n * 4 + 1) % 256 % 4 = 1 := by omega
      have hb0 : ¬((n * 4 + 1) % 256 % 4 = 0) := by omega
      have hv : ((n * 4 + 1) % 256 + 256 * ((n * 4 + 1) / 256 % 256)) / 4
          = n := by omega
      simp [h1, h2, e2, decodeCompact, hb0, hb1, hv]
    · by_cases h3 : n < 1073741824
      · have e3 : toBytesLE 4 (n * 4 + 2) =
            [(n * 4 + 2) % 256, (n * 4 + 2) / 256 % 256,
             (n * 4 + 2) / 65536 % 256, (n * 4 + 2) / 16777216 % 256] := by
          simp [toBytesLE, Nat.div_div_eq_div_mul]
        have hb2 : (n * 4 + 2) % 256 % 4 = 2 := by omega
        have hb0 : ¬((n * 4 + 2) % 256 % 4 = 0) := by omega
        have hb1 : ¬((n * 4 + 2) % 256 % 4 = 1) := by omega
        have hv : ((n * 4 + 2) % 256 + 256 * ((n * 4 + 2) / 256 % 256)
            + 65536 * ((n * 4 + 2) / 65536 % 256)
            + 16777216 * ((n * 4 + 2) / 16777216 % 256)) / 4 = n := by
          omega
        simp [h1, h2, h3, e3, decodeCompact, hb0, hb1, hb2, hv]
      · have hge : 4 ≤ byteLen n := byteLen_ge_four n (by omega)
        have hb3 : ((byteLen n - 4) * 4 + 3) % 4 = 3 := by omega
        have hb0 : ¬(((byteLen n - 4) * 4 + 3) % 4 = 0) := by omega
        have hb1 : ¬(((byteLen n - 4) * 4 + 3) % 4 = 1) := by omega
        have hb2 : ¬(((byteLen n - 4) * 4 + 3) % 4 = 2) := by omega
        have hlen : ((byteLen n - 4) * 4 + 3) / 4 + 4 = byteLen n := by
          omega
        have hblen : (toBytesBE n).length = byteLen n := by
          simp [toBytesBE]
        simp only [h1, h2, h3, if_false, List.cons_append, decodeCompact,
          hb0, hb1, hb2, if_false, hlen]
        have hnlt : ¬((toBytesBE n ++ rest).length < byteLen n) := by
          simp [hblen]
        rw [if_neg hnlt]
        rw [List.take_left' hblen, List.drop_left' hblen]
        rw [toBytesBE, fromBytesBE_reverse,
          fromBytesLE_toBytesLE _ n (byteLen_lt n)]

@[simp]
theorem decodeBool_encode (b : Bool) (rest : List Byte) :
    decodeBool (encodeBool b ++ rest) = some (b, rest) := by
  cases b <;> rfl

@[simp]
theorem decodeBytes_encode (bs rest : List Byte) :
    decodeBytes (encodeBytes bs ++ rest) = some (bs, rest) := by
  unfold decodeBytes encodeBytes
  rw [List.append_assoc, decodeCompact_encode]
  have hnlt : ¬((bs ++ rest).length < bs.length) := by simp
  simp [hnlt, List.take_left, List.drop_left]

@[simp]
theorem decodeText_encode (t : Text) (rest : List Byte) :
    decodeText (encodeText t ++ rest) = some (t, rest) :=
  decodeBytes_encode t rest

@[simp]
theorem decodeModifier_encode (m : StorageFunctionModifierV0)
    (rest : List Byte) :
    decodeModifier (encodeModifier m ++ rest) = some (m, rest) := by
  cases m <;> rfl

theorem decodeListN_encode
    (dec : List Byte → Option (α × List Byte)) (enc : α → List Byte)
    (helem : ∀ (x : α) (rest : List Byte), dec (enc x ++ rest) = some (x, rest))
    (xs : List α) (rest : List Byte) :
    decodeListN dec xs.length ((xs.map enc).flatten ++ rest) =
      some (xs, rest) := by
  induction xs with
  | nil => simp [decodeListN]
  | cons x xs ih => simp [decodeListN, List.append_assoc, helem, ih]

theorem decodeList_encodeListT
    (dec : List Byte → Option (α × List Byte)) (enc : α → List Byte)
    (helem : ∀ (x : α) (rest : List Byte), dec (enc x ++ rest) = some (x, rest))
    (xs : List α) (rest : List Byte) :
    decodeList dec (encodeListT enc xs ++ rest) = some (xs, rest) := by
  unfold decodeList encodeListT
  rw [List.append_assoc, decodeCompact_encode]
  simp [decodeListN_encode dec enc helem]

/-- One value round-trips through an optional encoder and its decoder with
any trailing bytes preserved. -/
def RTO (enc : α → Option (List Byte))
    (dec : List Byte → Option (α × List Byte)) (x : α) : Prop :=
  ∃ b, enc x = some b ∧ ∀ rest, dec (b ++ rest) = some (x, rest)

theorem concatMapO_rt (enc : α → Option (List Byte))
    (dec : List Byte → Option (α × List Byte)) (xs : List α)
    (h : ∀ x ∈ xs, RTO enc dec x) :
    ∃ b, concatMapO enc xs = some b ∧
      ∀ rest, decodeListN dec xs.length (b ++ rest) = some (xs, rest) := by
  induction xs with
  | nil => exact ⟨[], rfl, fun rest => rfl⟩
  | cons x xs ih =>
    obtain ⟨bx, hbx, hdx⟩ := h x (List.mem_cons_self _ _)
    obtain ⟨bxs, hbxs, hdxs⟩ := ih (fun y hy => h y (List.mem_cons_of_mem _ hy))
    refine ⟨bx ++ bxs, by simp [concatMapO, hbx, hbxs], fun rest => ?_⟩
    simp [decodeListN, List.append_assoc, hdx, hdxs]

theorem encodeListO_rt (enc : α → Option (List Byte))
    (dec : List Byte → Option (α × List Byte)) (xs : List α)
    (h : ∀ x ∈ xs, RTO enc dec x) :
    RTO (encodeListO enc) (decodeList dec) xs := by
  obtain ⟨b, hb, hd⟩ := concatMapO_rt enc dec xs h
  refine ⟨encodeCompact xs.length ++ b, by simp [encodeListO, hb],
    fun rest => ?_⟩
  unfold decodeList
  rw [List.append_assoc, decodeCompact_encode]
  simpa using hd rest

theorem encodeStorageHasher_rt (h : StorageHasherV11) (hwf : WFHasher h) :
    RTO encodeStorageHasher decodeStorageHasher h := by
  rcases hwf with h1 | h1 | h1 | h1 | h1 | h1 | h1 <;> subst h1 <;>
    exact ⟨_, rfl, fun rest => rfl⟩

theorem encodeMapType_rt (m : MapTypeV11) (hwf : WFHasher m.Hasher) :
    RTO encodeMapType decodeMapType m := by
  obtain ⟨hb, hhe, hhd⟩ := encodeStorageHasher_rt m.Hasher hwf
  refine ⟨hb ++ encodeText m.Key ++ encodeText m.Value
    ++ encodeBool m.Linked, ?_, fun rest => ?_⟩
  · simp [encodeMapType, hhe]
  · simp [decodeMapType, List.append_assoc, hhd]

theorem encodeDoubleMapType_rt (m : DoubleMapTypeV11)
    (hwf1 : WFHasher m.Hasher) (hwf2 : WFHasher m.Key2Hasher) :
    RTO encodeDoubleMapType decodeDoubleMapType m := by
  obtain ⟨hb1, hhe1, hhd1⟩ := encodeStorageHasher_rt m.Hasher hwf1
  obtain ⟨hb2, hhe2, hhd2⟩ := encodeStorageHasher_rt m.Key2Hasher hwf2
  refine ⟨hb1 ++ encodeText m.Key1 ++ encodeText m.Key2
    ++ encodeText m.Value ++ hb2, ?_, fun rest => ?_⟩
  · simp [encodeDoubleMapType, hhe1, hhe2]
  · simp [decodeDoubleMapType, List.append_assoc, hhd1, hhd2]

theorem encodeStorageFunctionType_rt (t : StorageFunctionTypeV11)
    (hwf : WFType t) :
    RTO encodeStorageFunctionType decodeStorageFunctionType t := by
  obtain ⟨tT, tAT, tM, tAM, tDM, tADM⟩ := t
  rcases hwf with ⟨ht, hm, hd, ham, hadm⟩ | ⟨ht, hm, hd, hat, hadm, hwh⟩ |
    ⟨ht, hm, hd, hat, ham, hw1, hw2⟩
  · dsimp only at ht hm hd ham hadm
    subst ht hm hd ham hadm
    exact ⟨0 :: encodeText tAT, rfl, fun rest => by
      simp [decodeStorageFunctionType]⟩
  · dsimp only at ht hm hd hat hadm hwh
    subst ht hm hd hat hadm
    obtain ⟨mb, hme, hmd⟩ := encodeMapType_rt tAM hwh
    refine ⟨1 :: mb, ?_, fun rest => ?_⟩
    · simp [encodeStorageFunctionType, hme]
    · simp [decodeStorageFunctionType, hmd]
  · dsimp only at ht hm hd hat ham hw1 hw2
    subst ht hm hd hat ham
    obtain ⟨mb, hme, hmd⟩ := encodeDoubleMapType_rt tADM hw1 hw2
    refine ⟨2 :: mb, ?_, fun rest => ?_⟩
    · simp [encodeStorageFunctionType, hme]
    · simp [decodeStorageFunctionType, hmd]

theorem encodeStorageItem_rt (i : StorageFunctionMetadataV11)
    (hwf : WFType i.Ty) :
    RTO encodeStorageItem decodeStorageItem i := by
  obtain ⟨tb, hte, htd⟩ := encodeStorageFunctionType_rt i.Ty hwf
  refine ⟨encodeText i.Name ++ encodeModifier i.Modifier ++ tb
    ++ encodeBytes i.Fallback ++ encodeListT encodeText i.Documentation,
    ?_, fun rest => ?_⟩
  · simp [encodeStorageItem, hte]
  · simp [decodeStorageItem, List.append_assoc, htd,
      decodeList_encodeListT decodeText encodeText decodeText_encode]

theorem encodeStorage_rt (s : StorageMetadataV11)
    (hwf : ∀ i ∈ s.Items, WFType i.Ty) :
    RTO encodeStorage decodeStorage s := by
  obtain ⟨ib, hie, hid⟩ := encodeListO_rt encodeStorageItem
    decodeStorageItem s.Items (fun i hi => encodeStorageItem_rt i (hwf i hi))
  refine ⟨encodeText s.Pfx ++ ib, ?_, fun rest => ?_⟩
  · simp [encodeStorage, hie]
  · simp [decodeStorage, List.append_assoc, hid]

@[simp]
theorem decodeFunctionArg_encode (a : FunctionArgumentMetadata)
    (rest : List Byte) :
    decodeFunctionArg (encodeFunctionArg a ++ rest) = some (a, rest) := by
  simp [decodeFunctionArg, encodeFunctionArg, List.append_assoc]

@[simp]
theorem decodeFunction_encode (f : FunctionMetadataV4) (rest : List Byte) :
    decodeFunction (encodeFunction f ++ rest) = some (f, rest) := by
  simp [decodeFunction, encodeFunction, List.append_assoc,
    decodeList_encodeListT decodeFunctionArg encodeFunctionArg
      decodeFunctionArg_encode,
    decodeList_encodeListT decodeText encodeText decodeText_encode]

@[simp]
theorem decodeEvent_encode (e : EventMetadataV4) (rest : List Byte) :
    decodeEvent (encodeEvent e ++ rest) = some (e, rest) := by
  simp [decodeEvent, encodeEvent, List.append_assoc,
    decodeList_encodeListT decodeText encodeText decodeText_encode]

@[simp]
theorem decodeConstant_encode (c : ModuleConstantMetadataV6)
    (rest : List Byte) :
    decodeConstant (encodeConstant c ++ rest) = some (c, rest) := by
  simp [decodeConstant, encodeConstant, List.append_assoc,
    decodeList_encodeListT decodeText encodeText decodeText_encode]

@[simp]
theorem decodeError_encode (e : ErrorMetadataV8) (rest : List Byte) :
    decodeError (encodeError e ++ rest) = some (e, rest) := by
  simp [decodeError, encodeError, List.append_assoc,
    decodeList_encodeListT decodeText encodeText decodeText_encode]

set_option maxHeartbeats 3200000 in
/-- C6: ModuleMetadataV11 encoding writes each optional section (Storage,
Calls, Events) only when its flag is true — a false flag contributes
exactly the flag byte, as the definition of encodeModule shows — and
decoding reads each flag before conditionally reading its payload;
consequently for every module value whose section fields are populated
only when the corresponding flag is set (WFModule), encoding succeeds and
decoding the result (with any trailing bytes) returns exactly the original
module. -/
theorem decodeModule_encodeModule (m : ModuleMetadataV11)
    (hwf : WFModule m) :
    ∃ bs, encodeModule m = some bs ∧
      ∀ rest, decodeModule (bs ++ rest) = some (m, rest) := by
  obtain ⟨hs, hc, he, hitems⟩ := hwf
  obtain ⟨mName, mHS, mStorage, mHC, mCalls, mHE, mEvents, mConsts,
    mErrs⟩ := m
  dsimp only at hs hc he hitems
  have hfuncs := decodeList_encodeListT decodeFunction encodeFunction
    decodeFunction_encode
  have hevs := decodeList_encodeListT decodeEvent encodeEvent
    decodeEvent_encode
  have hconsts := decodeList_encodeListT decodeConstant encodeConstant
    decodeConstant_encode
  have herrs := decodeList_encodeListT decodeError encodeError
    decodeError_encode
  cases mHS with
  | false =>
    have hs0 : mStorage = {} := hs rfl
    subst hs0
    cases mHC with
    | false =>
      have hc0 : mCalls = [] := hc rfl
      subst hc0
      cases mHE with
      | false =>
        have he0 : mEvents = [] := he rfl
        subst he0
        refine ⟨_, rfl, fun rest => ?_⟩
        simp only [decodeModule, List.append_assoc, decodeText_encode,
          decodeBool_encode, Option.some_bind, Option.bind_eq_bind,
          if_true, eq_self_iff_true, Bool.false_eq_true, if_false,
          Option.pure_def,
          List.nil_append, hconsts, herrs]
      | true =>
        refine ⟨_, rfl, fun rest => ?_⟩
        simp only [decodeModule, List.append_assoc, decodeText_encode,
          decodeBool_encode, Option.some_bind, Option.bind_eq_bind,
          if_true, eq_self_iff_true, Bool.false_eq_true, if_false,
          Option.pure_def,
          List.nil_append, hevs, hconsts, herrs]
    | true =>
      cases mHE with
      | false =>
        have he0 : mEvents = [] := he rfl
        subst he0
        refine ⟨_, rfl, fun rest => ?_⟩
        simp only [decodeModule, List.append_assoc, decodeText_encode,
          decodeBool_encode, Option.some_bind, Option.bind_eq_bind,
          if_true, eq_self_iff_true, Bool.false_eq_true, if_false,
          Option.pure_def,
          List.nil_append, hfuncs, hconsts, herrs]
      | true =>
        refine ⟨_, rfl, fun rest => ?_⟩
        simp only [decodeModule, List.append_assoc, decodeText_encode,
          decodeBool_encode, Option.some_bind, Option.bind_eq_bind,
          if_true, eq_self_iff_true, Bool.false_eq_true, if_false,
          Option.pure_def,
          List.nil_append, hfuncs, hevs, hconsts, herrs]
  | true =>
    obtain ⟨sb, hse, hsd⟩ := encodeStorage_rt mStorage hitems
    have henc : encodeModule
        ⟨mName, true, mStorage, mHC, mCalls, mHE, mEvents, mConsts,
         mErrs⟩ = some (encodeText mName ++ (encodeBool true ++ (sb
          ++ (encodeBool mHC
          ++ ((if mHC then encodeListT encodeFunction mCalls else [])
          ++ (encodeBool mHE
          ++ ((if mHE then encodeListT encodeEvent mEvents else [])
          ++ (encodeListT encodeConstant mConsts
          ++ encodeListT encodeError mErrs)))))))) := by
      simp only [encodeModule, if_true, eq_self_iff_true, hse,
        Option.some_bind, Option.bind_eq_bind, Option.pure_def,
        List.append_assoc]
    cases mHC with
    | false =>
      have hc0 : mCalls = [] := hc rfl
      subst hc0
      cases mHE with
      | false =>
        have he0 : mEvents = [] := he rfl
        subst he0
        refine ⟨_, henc, fun rest => ?_⟩
        simp only [decodeModule, List.append_assoc, decodeText_encode,
          decodeBool_encode, Option.some_bind, Option.bind_eq_bind,
          if_true, eq_self_iff_true, Bool.false_eq_true, if_false,
          Option.pure_def,
          List.nil_append, hsd, hconsts, herrs]
      | true =>
        refine ⟨_, henc, fun rest => ?_⟩
        simp only [decodeModule, List.append_assoc, decodeText_encode,
          decodeBool_encode, Option.some_bind, Option.bind_eq_bind,
          if_true, eq_self_iff_true, Bool.false_eq_true, if_false,
          Option.pure_def,
          List.nil_append, hsd, hevs, hconsts, herrs]
    | true =>
      cases mHE with
      | false =>
        have he0 : mEvents = [] := he rfl
        subst he0
        refine ⟨_, henc, fun rest => ?_⟩
        simp only [decodeModule, List.append_assoc, decodeText_encode,
          decodeBool_encode, Option.some_bind, Option.bind_eq_bind,
          if_true, eq_self_iff_true, Bool.false_eq_true, if_false,
          Option.pure_def,
          List.nil_append, hsd, hfuncs, hconsts, herrs]
      | true =>
        refine ⟨_, henc, fun rest => ?_⟩
        simp only [decodeModule, List.append_assoc, decodeText_encode,
          decodeBool_encode, Option.some_bind, Option.bind_eq_bind,
          if_true, eq_self_iff_true, Bool.false_eq_true, if_false,
          Option.pure_def,
          List.nil_append, hsd, hfuncs, hevs, hconsts, herrs]

/-- A fully populated well-formed module used by the C6 witness: storage
(with a map entry), calls and events all present. -/
def moduleEx : ModuleMetadataV11 :=
  { Name := [77, 120],
    HasStorage := true,
    Storage :=
      { Pfx := [80, 120],
        Items :=
          [{ Name := [115],
             Modifier := .required,
             Ty := { IsMap := true,
                     AsMap := { Hasher := { IsBlake2_128Concat := true },
                                Key := [75], Value := [86],
                                Linked := false } },
             Fallback := [0, 1],
             Documentation := [[100]] }] },
    HasCalls := true,
    Calls := [{ Name := [102], Args := [{ Name := [97], Ty := [117] }],
                Documentation := [] }],
    HasEvents := true,
    Events := [{ Name := [101], Args := [[117]], Documentation := [] }],
    Constants := [{ Name := [99], Ty := [117], Value := [7],
                    Documentation := [] }],
    Errors := [{ Name := [69], Documentation := [] }] }

/-- C6 witness: the round trip at the concrete fully populated module. -/
theorem decodeModule_encodeModule_witness :
    ∃ bs, encodeModule moduleEx = some bs ∧
      ∀ rest, decodeModule (bs ++ rest) = some (moduleEx, rest) :=
  decodeModule_encodeModule moduleEx (by decide)

end GSRPC
